import Mathlib

/-!
Verification development for the mm-ecs entity component system.

The library stores components of each type in a densely packed pool with a
sparse to dense indirection (fields data, back, forward), a reference count
per dense slot, and, in the variant of the header ecs.h, a generation tag per
dense slot.  The header ecs.hpp is a second variant of the same code without
generation tags.  Both variants are modelled below, each in its own namespace:
EcsH for src/ecs.h and EcsHpp for src/ecs.hpp.  Machine integers are modelled
as Nat with explicit reduction modulo 2 to the 32 or 64 where overflow can
occur; an out of bounds vector read, which is undefined behavior in the
source, is modelled by the result value cres.ub.
-/

namespace MmEcs

/-- The error enumeration of the library. -/
inductive error where
  | component_already_exists
  | component_does_not_exist
  | component_has_references
  | no_such_entity
deriving DecidableEq, Repr

/-- Result of a checked operation: success, an error value, or undefined
behavior (an out of bounds vector access in the source). -/
inductive cres (α : Type) where
  | ok : α → cres α
  | err : error → cres α
  | ub : cres α
deriving DecidableEq, Repr

/-- The sentinel for an empty sparse entry, numeric_limits of size_t max. -/
def invalid_component_index : Nat := 18446744073709551615

/-- The sentinel entity, numeric_limits of uint32_t max. -/
def invalid_entity : Nat := 4294967295

/-- Modulus of the 32 bit unsigned counters in the source. -/
def u32 : Nat := 4294967296

/-! ## Helper lemmas about list reads -/

theorem getD_set_self {α : Type} (l : List α) (i : Nat) (a d : α) (h : i < l.length) :
    (l.set i a).getD i d = a := by
  simp [List.getD_eq_getElem?_getD, List.getElem?_set_self h]

theorem getD_set_ne {α : Type} (l : List α) {i j : Nat} (a d : α) (h : i ≠ j) :
    (l.set i a).getD j d = l.getD j d := by
  simp [List.getD_eq_getElem?_getD, List.getElem?_set_ne h]

theorem getD_append_left {α : Type} (l m : List α) (i : Nat) (d : α) (h : i < l.length) :
    (l ++ m).getD i d = l.getD i d := by
  simp [List.getD_eq_getElem?_getD, List.getElem?_append_left h]

theorem getD_append_last {α : Type} (l : List α) (a d : α) :
    (l ++ [a]).getD l.length d = a := by
  simp [List.getD_eq_getElem?_getD, List.getElem?_append_right (Nat.le_refl _)]

theorem getD_dropLast {α : Type} (l : List α) (i : Nat) (d : α) (h : i < l.length - 1) :
    l.dropLast.getD i d = l.getD i d := by
  rw [List.getD_eq_getElem?_getD, List.getD_eq_getElem?_getD, List.getElem?_dropLast, if_pos h]

theorem getD_oob {α : Type} (l : List α) (i : Nat) (d : α) (h : l.length ≤ i) :
    l.getD i d = d := by
  simp [List.getD_eq_getElem?_getD, List.getElem?_eq_none h]

theorem getD_replicate {α : Type} (n i : Nat) (a d : α) (h : i < n) :
    (List.replicate n a).getD i d = a := by
  simp [List.getD_eq_getElem?_getD, List.getElem?_replicate, h]

theorem getD_lt_eq {α : Type} (l : List α) (i : Nat) (d : α) (h : i < l.length) :
    l.get? i = some (l.getD i d) := by
  rw [List.get?_eq_getElem?, List.getElem?_eq_getElem h, List.getD_eq_getElem?_getD,
    List.getElem?_eq_getElem h]
  rfl

/-- Swap of two list entries; leaves the list unchanged if either index is out
of bounds (the source would have undefined behavior there). -/
def lswap {α : Type} (l : List α) (i j : Nat) : List α :=
  match l.get? i, l.get? j with
  | some a, some b => (l.set i b).set j a
  | some _, none => l
  | none, _ => l

theorem lswap_length {α : Type} (l : List α) (i j : Nat) :
    (lswap l i j).length = l.length := by
  unfold lswap
  cases hi : l.get? i <;> cases hj : l.get? j <;> simp

theorem lswap_getD_left {α : Type} (l : List α) {i j : Nat} (d : α)
    (hi : i < l.length) (hj : j < l.length) :
    (lswap l i j).getD i d = l.getD j d := by
  unfold lswap
  rw [List.get?_eq_getElem?, List.get?_eq_getElem?,
    List.getElem?_eq_getElem hi, List.getElem?_eq_getElem hj]
  by_cases hij : i = j
  · subst hij
    rw [getD_set_self _ _ _ _ (by simpa using hi)]
    simp [List.getD_eq_getElem?_getD, List.getElem?_eq_getElem hi]
  · rw [getD_set_ne _ _ _ (fun h => hij h.symm), getD_set_self _ _ _ _ (by simpa using hi)]
    simp [List.getD_eq_getElem?_getD, List.getElem?_eq_getElem hj]

theorem lswap_getD_right {α : Type} (l : List α) {i j : Nat} (d : α)
    (hi : i < l.length) (hj : j < l.length) :
    (lswap l i j).getD j d = l.getD i d := by
  unfold lswap
  rw [List.get?_eq_getElem?, List.get?_eq_getElem?,
    List.getElem?_eq_getElem hi, List.getElem?_eq_getElem hj]
  rw [getD_set_self _ _ _ _ (by simpa using hj)]
  simp [List.getD_eq_getElem?_getD, List.getElem?_eq_getElem hi]

theorem lswap_getD_other {α : Type} (l : List α) {i j k : Nat} (d : α)
    (hki : k ≠ i) (hkj : k ≠ j) :
    (lswap l i j).getD k d = l.getD k d := by
  unfold lswap
  cases hi : l.get? i <;> cases hj : l.get? j <;> try rfl
  rw [getD_set_ne _ _ _ (fun h => hkj h.symm), getD_set_ne _ _ _ (fun h => hki h.symm)]

namespace EcsH

/-! ## Model of the component pool of src/ecs.h (with generation tags) -/

/-- The packed pool of src/ecs.h: dense value array data, dense owner array
back, sparse array forward, dense generation tags, dense reference counts and
a running 32 bit generation counter. -/
structure component_pool (C : Type) where
  data : List C := []
  back : List Nat := []
  forward : List Nat := []
  generations : List Nat := []
  refcounts : List Nat := []
  current_generation : Nat := 0
deriving DecidableEq, Repr

/-- forward.resize(e + 1, invalid_component_index) for e at or past the end. -/
def resize_forward (f : List Nat) (e : Nat) : List Nat :=
  f ++ List.replicate (e + 1 - f.length) invalid_component_index

variable {C : Type}

/-- The shared tail of add_element and add_element_fast: forward[e] is set to
back.size() before the dense arrays grow by one entry; the new slot receives
the current generation and the 32 bit generation counter advances. -/
def add_core (p : component_pool C) (e : Nat) (v : C) : component_pool C :=
  { p with
    forward := p.forward.set e p.back.length
    back := p.back ++ [e]
    data := p.data ++ [v]
    refcounts := p.refcounts ++ [0]
    generations := p.generations ++ [p.current_generation]
    current_generation := (p.current_generation + 1) % u32 }

/-- Checked insert, component_pool::add_element. -/
def add_element (p : component_pool C) (e : Nat) (v : C) : cres Unit × component_pool C :=
  if e ≥ p.forward.length then
    (cres.ok (), add_core { p with forward := resize_forward p.forward e } e v)
  else if p.forward.getD e invalid_component_index ≠ invalid_component_index then
    (cres.err error.component_already_exists, p)
  else
    (cres.ok (), add_core p e v)

/-- Unchecked insert, component_pool::add_element_fast. -/
def add_element_fast (p : component_pool C) (e : Nat) (v : C) : component_pool C :=
  if e ≥ p.forward.length then
    add_core { p with forward := resize_forward p.forward e } e v
  else
    add_core p e v

/-- Unchecked swap and pop removal, component_pool::remove_element_fast. -/
def remove_element_fast (p : component_pool C) (e : Nat) : component_pool C :=
  let idx := p.forward.getD e invalid_component_index
  let last := p.data.length - 1
  let p1 :=
    if idx ≠ last then
      let ps : component_pool C := { p with
        data := lswap p.data idx last
        back := lswap p.back idx last
        generations := lswap p.generations idx last
        refcounts := lswap p.refcounts idx last }
      { ps with forward := ps.forward.set (ps.back.getD idx 0) idx }
    else p
  { p1 with
    data := p1.data.dropLast
    back := p1.back.dropLast
    generations := p1.generations.dropLast
    refcounts := p1.refcounts.dropLast
    forward := p1.forward.set e invalid_component_index }

/-- Checked removal, component_pool::remove_element. -/
def remove_element (p : component_pool C) (e : Nat) : cres Unit × component_pool C :=
  if p.forward.length = 0 ∨ p.back.length = 0 then
    (cres.err error.component_does_not_exist, p)
  else
    match p.forward.get? e with
    | none => (cres.ub, p)
    | some idx =>
      if idx = invalid_component_index then
        (cres.err error.component_does_not_exist, p)
      else
        match p.refcounts.get? idx with
        | none => (cres.ub, p)
        | some rc =>
          if rc ≠ 0 then (cres.err error.component_has_references, p)
          else (cres.ok (), remove_element_fast p e)

/-- Checked lookup, component_pool::get_element. -/
def get_element (p : component_pool C) (e : Nat) : cres C :=
  if p.forward.length = 0 ∨ p.back.length = 0 then
    cres.err error.component_does_not_exist
  else
    match p.forward.get? e with
    | none => cres.ub
    | some idx =>
      if idx = invalid_component_index then
        cres.err error.component_does_not_exist
      else
        match p.data.get? idx with
        | none => cres.ub
        | some v => cres.ok v

/-- component_pool::has_component. -/
def has_component (p : component_pool C) (e : Nat) : Bool :=
  if p.forward.length = 0 ∨ p.back.length = 0 then false
  else decide (p.forward.getD e invalid_component_index ≠ invalid_component_index)

/-- component_pool::get_generation. -/
def get_generation (p : component_pool C) (e : Nat) : Nat :=
  p.generations.getD (p.forward.getD e invalid_component_index) 0

/-- The pool side invariant: dense arrays share one length, dense indices are
below that length and below the sentinel, and forward and back are mutually
inverse on their valid entries. -/
def wf (p : component_pool C) : Prop :=
  p.back.length = p.data.length ∧
  p.generations.length = p.data.length ∧
  p.refcounts.length = p.data.length ∧
  p.data.length < invalid_component_index ∧
  (∀ ent, ent < p.forward.length →
    p.forward.getD ent invalid_component_index ≠ invalid_component_index →
    p.forward.getD ent invalid_component_index < p.data.length ∧
    p.back.getD (p.forward.getD ent invalid_component_index) 0 = ent) ∧
  (∀ i, i < p.back.length →
    p.back.getD i 0 < p.forward.length ∧
    p.forward.getD (p.back.getD i 0) invalid_component_index = i)

instance (p : component_pool C) : Decidable (wf p) := by
  unfold wf
  exact inferInstance

/-- An entry of a Nat list that differs from the default of a read is read in
bounds. -/
theorem getD_ne_default_lt {α : Type} (l : List α) (i : Nat) (d : α)
    (h : l.getD i d ≠ d) : i < l.length := by
  by_contra hc
  exact h (getD_oob l i d (Nat.le_of_not_lt hc))

/-- has_component spelt out. -/
theorem has_component_true_iff (p : component_pool C) (e : Nat) :
    has_component p e = true ↔
      (p.back.length ≠ 0 ∧
       p.forward.getD e invalid_component_index ≠ invalid_component_index) := by
  unfold has_component
  by_cases h1 : p.forward.length = 0
  · have hf : p.forward = [] := List.length_eq_zero.mp h1
    simp [h1, hf, invalid_component_index]
  · by_cases h2 : p.back.length = 0
    · simp [h1, h2]
    · simp [h1, h2]

/-- Shape of remove_element_fast when the removed slot is not the last one. -/
theorem remove_fast_eq_swap (p : component_pool C) (e : Nat)
    (hne : p.forward.getD e invalid_component_index ≠ p.data.length - 1) :
    remove_element_fast p e =
      { data := (lswap p.data (p.forward.getD e invalid_component_index) (p.data.length - 1)).dropLast
        back := (lswap p.back (p.forward.getD e invalid_component_index) (p.data.length - 1)).dropLast
        forward := (p.forward.set
            ((lswap p.back (p.forward.getD e invalid_component_index) (p.data.length - 1)).getD
              (p.forward.getD e invalid_component_index) 0)
            (p.forward.getD e invalid_component_index)).set e invalid_component_index
        generations := (lswap p.generations (p.forward.getD e invalid_component_index)
            (p.data.length - 1)).dropLast
        refcounts := (lswap p.refcounts (p.forward.getD e invalid_component_index)
            (p.data.length - 1)).dropLast
        current_generation := p.current_generation } := by
  unfold remove_element_fast
  simp only [if_pos hne]

/-- Shape of remove_element_fast when the removed slot is the last one. -/
theorem remove_fast_eq_pop (p : component_pool C) (e : Nat)
    (heq : p.forward.getD e invalid_component_index = p.data.length - 1) :
    remove_element_fast p e =
      { data := p.data.dropLast
        back := p.back.dropLast
        forward := p.forward.set e invalid_component_index
        generations := p.generations.dropLast
        refcounts := p.refcounts.dropLast
        current_generation := p.current_generation } := by
  unfold remove_element_fast
  simp only [heq, ne_eq, not_true_eq_false, if_neg, ite_false]

/-- Basic consequences of wf and presence. -/
theorem wf_has_facts (p : component_pool C) (e : Nat) (hwf : wf p)
    (hhas : has_component p e = true) :
    e < p.forward.length ∧
    p.forward.getD e invalid_component_index < p.data.length ∧
    p.back.getD (p.forward.getD e invalid_component_index) 0 = e ∧
    0 < p.data.length := by
  obtain ⟨hb, _, _, _, hfwd, _⟩ := hwf
  obtain ⟨hb0, hne⟩ := (has_component_true_iff p e).mp hhas
  have he : e < p.forward.length := getD_ne_default_lt _ _ _ hne
  obtain ⟨h1, h2⟩ := hfwd e he hne
  exact ⟨he, h1, h2, by omega⟩

/-- Lengths, the cleared sparse entry and the untouched generation counter
after a swap and pop removal. -/
theorem remove_fast_lengths (p : component_pool C) (e : Nat) (hwf : wf p)
    (hhas : has_component p e = true) :
    (remove_element_fast p e).data.length = p.data.length - 1 ∧
    (remove_element_fast p e).back.length = p.data.length - 1 ∧
    (remove_element_fast p e).generations.length = p.data.length - 1 ∧
    (remove_element_fast p e).refcounts.length = p.data.length - 1 ∧
    (remove_element_fast p e).forward.length = p.forward.length ∧
    (remove_element_fast p e).forward.getD e invalid_component_index =
      invalid_component_index ∧
    (remove_element_fast p e).current_generation = p.current_generation := by
  obtain ⟨he, hidx, hbe, hn⟩ := wf_has_facts p e hwf hhas
  obtain ⟨hb, hg, hr, _, _, _⟩ := hwf
  by_cases hc : p.forward.getD e invalid_component_index = p.data.length - 1
  · rw [remove_fast_eq_pop p e hc]
    refine ⟨by simp, by simp [hb], by simp [hg], by simp [hr], by simp, ?_, rfl⟩
    exact getD_set_self _ _ _ _ (by simpa using he)
  · rw [remove_fast_eq_swap p e hc]
    refine ⟨by simp [lswap_length], by simp [lswap_length, hb], by simp [lswap_length, hg],
      by simp [lswap_length, hr], by simp, ?_, rfl⟩
    exact getD_set_self _ _ _ _ (by simpa using he)

/-- The removed entity is no longer present after remove_element_fast. -/
theorem remove_fast_has_false (p : component_pool C) (e : Nat) (hwf : wf p)
    (hhas : has_component p e = true) :
    has_component (remove_element_fast p e) e = false := by
  have hfe := (remove_fast_lengths p e hwf hhas).2.2.2.2.2.1
  cases hh : has_component (remove_element_fast p e) e
  · rfl
  · obtain ⟨_, hne⟩ := (has_component_true_iff _ e).mp hh
    exact absurd hfe hne

/-- The pool invariant is preserved by the unchecked swap and pop removal of
a present component. -/
theorem remove_fast_wf (p : component_pool C) (e : Nat) (hwf : wf p)
    (hhas : has_component p e = true) : wf (remove_element_fast p e) := by
  obtain ⟨he, hidx, hbe, hn⟩ := wf_has_facts p e hwf hhas
  obtain ⟨hb, hg, hr, hbound, hfwd, hback⟩ := hwf
  by_cases hc : p.forward.getD e invalid_component_index = p.data.length - 1
  · rw [remove_fast_eq_pop p e hc]
    refine ⟨by simp [hb], by simp [hg], by simp [hr], by simp; omega, ?_, ?_⟩
    · intro ent hlen hne'
      simp only [List.length_set] at hlen
      by_cases hee : ent = e
      · subst hee
        exact absurd (getD_set_self _ _ _ _ (by simpa using he)) hne'
      · rw [getD_set_ne _ _ _ (fun h => hee h.symm)] at hne' ⊢
        obtain ⟨hj1, hj2⟩ := hfwd ent hlen hne'
        have hji : p.forward.getD ent invalid_component_index ≠
            p.forward.getD e invalid_component_index := by
          intro hx
          rw [hx, hbe] at hj2
          exact hee hj2.symm
        have hjlt : p.forward.getD ent invalid_component_index < p.data.length - 1 := by
          omega
        constructor
        · simpa using hjlt
        · rw [getD_dropLast _ _ _ (by omega)]
          exact hj2
    · intro i hi
      simp only [List.length_dropLast, hb] at hi
      rw [getD_dropLast _ _ _ (by omega)]
      obtain ⟨hi1, hi2⟩ := hback i (by omega)
      have hie : p.back.getD i 0 ≠ e := by
        intro hx
        rw [hx, hc] at hi2
        omega
      constructor
      · simpa using hi1
      · rw [getD_set_ne _ _ _ (fun h => hie h.symm)]
        exact hi2
  · have hswb : (lswap p.back (p.forward.getD e invalid_component_index)
        (p.data.length - 1)).getD (p.forward.getD e invalid_component_index) 0 =
        p.back.getD (p.data.length - 1) 0 :=
      lswap_getD_left p.back 0 (by omega) (by omega)
    rw [remove_fast_eq_swap p e hc, hswb]
    have hidxlt : p.forward.getD e invalid_component_index < p.data.length - 1 := by
      omega
    obtain ⟨hbL1, hbL2⟩ := hback (p.data.length - 1) (by omega)
    have hbLe : p.back.getD (p.data.length - 1) 0 ≠ e := by
      intro hx
      rw [hx] at hbL2
      exact hc hbL2
    refine ⟨by simp [lswap_length, hb], by simp [lswap_length, hg],
      by simp [lswap_length, hr], by simp only [List.length_dropLast, lswap_length]; omega, ?_, ?_⟩
    · intro ent hlen hne'
      simp only [List.length_set] at hlen
      by_cases hee : ent = e
      · subst hee
        exact absurd (getD_set_self _ _ _ _ (by simpa using he)) hne'
      · rw [getD_set_ne _ _ _ (fun h => hee h.symm)] at hne' ⊢
        by_cases hebl : ent = p.back.getD (p.data.length - 1) 0
        · rw [hebl] at hne' ⊢
          rw [getD_set_self _ _ _ _ hbL1] at hne' ⊢
          refine ⟨by simp only [List.length_dropLast, lswap_length]; omega, ?_⟩
          rw [getD_dropLast _ _ _ (by simp only [List.length_dropLast, lswap_length]; omega)]
          exact lswap_getD_left p.back 0 (by omega) (by omega)
        · rw [getD_set_ne _ _ _ (fun h => hebl h.symm)] at hne' ⊢
          obtain ⟨hj1, hj2⟩ := hfwd ent hlen hne'
          have hji : p.forward.getD ent invalid_component_index ≠
              p.forward.getD e invalid_component_index := by
            intro hx
            rw [hx, hbe] at hj2
            exact hee hj2.symm
          have hjl : p.forward.getD ent invalid_component_index ≠ p.data.length - 1 := by
            intro hx
            rw [hx] at hj2
            exact hebl hj2.symm
          refine ⟨by simp only [List.length_dropLast, lswap_length]; omega, ?_⟩
          rw [getD_dropLast _ _ _ (by simp only [List.length_dropLast, lswap_length]; omega)]
          rw [lswap_getD_other _ _ hji hjl]
          exact hj2
    · intro i hi
      simp only [List.length_dropLast, lswap_length, hb] at hi
      rw [getD_dropLast _ _ _ (by simp only [List.length_dropLast, lswap_length]; omega)]
      by_cases hii : i = p.forward.getD e invalid_component_index
      · subst hii
        rw [lswap_getD_left p.back 0 (by omega) (by omega)]
        constructor
        · simpa using hbL1
        · rw [getD_set_ne _ _ _ (fun h => hbLe h.symm),
            getD_set_self _ _ _ _ hbL1]
      · rw [lswap_getD_other _ _ (fun h => hii h) (by omega)]
        obtain ⟨hi1, hi2⟩ := hback i (by omega)
        have hie : p.back.getD i 0 ≠ e := by
          intro hx
          rw [hx] at hi2
          exact hii hi2.symm
        have hibl : p.back.getD i 0 ≠ p.back.getD (p.data.length - 1) 0 := by
          intro hx
          rw [hx] at hi2
          rw [hbL2] at hi2
          omega
        constructor
        · simpa using hi1
        · rw [getD_set_ne _ _ _ (fun h => hie h.symm),
            getD_set_ne _ _ _ (fun h => hibl h.symm)]
          exact hi2

/-- Resizing the sparse array never changes the value a read yields. -/
theorem resize_forward_getD (f : List Nat) (e i : Nat) :
    (resize_forward f e).getD i invalid_component_index =
      f.getD i invalid_component_index := by
  unfold resize_forward
  by_cases h : i < f.length
  · exact getD_append_left _ _ _ _ h
  · rw [getD_oob f _ _ (by omega)]
    by_cases h2 : i < f.length + (e + 1 - f.length)
    · rw [List.getD_eq_getElem?_getD, List.getElem?_append_right (by omega),
        List.getElem?_replicate, if_pos (by omega)]
      rfl
    · refine getD_oob _ _ _ ?_
      simp only [List.length_append, List.length_replicate]
      omega

theorem resize_forward_le (f : List Nat) (e : Nat) :
    f.length ≤ (resize_forward f e).length := by
  unfold resize_forward
  simp

theorem resize_forward_covers (f : List Nat) (e : Nat) (h : f.length ≤ e) :
    e < (resize_forward f e).length := by
  unfold resize_forward
  simp only [List.length_append, List.length_replicate]
  omega

/-- Resizing the sparse array preserves the pool invariant. -/
theorem resize_wf (p : component_pool C) (e : Nat) (hwf : wf p) :
    wf { p with forward := resize_forward p.forward e } := by
  obtain ⟨hb, hg, hr, hbound, hfwd, hback⟩ := hwf
  refine ⟨hb, hg, hr, hbound, ?_, ?_⟩
  · intro ent hlen hne
    rw [resize_forward_getD] at hne ⊢
    by_cases hol : ent < p.forward.length
    · exact hfwd ent hol hne
    · exact absurd (getD_oob _ _ _ (by omega)) hne
  · intro i hi
    dsimp only at hi ⊢
    obtain ⟨h1, h2⟩ := hback i hi
    have hle := resize_forward_le p.forward e
    refine ⟨by omega, ?_⟩
    rw [resize_forward_getD]
    exact h2

/-- The invariant is preserved by the shared insertion tail provided the
entity is covered by the sparse array, absent, and the pool can still grow. -/
theorem add_core_wf (p : component_pool C) (e : Nat) (v : C) (hwf : wf p)
    (he : e < p.forward.length)
    (habs : p.forward.getD e invalid_component_index = invalid_component_index)
    (hroom : p.data.length + 1 < invalid_component_index) :
    wf (add_core p e v) := by
  obtain ⟨hb, hg, hr, hbound, hfwd, hback⟩ := hwf
  unfold add_core
  refine ⟨by simp [hb], by simp [hg], by simp [hr], by simp; omega, ?_, ?_⟩
  · intro ent hlen hne
    simp only [List.length_set] at hlen
    by_cases hee : ent = e
    · subst hee
      rw [getD_set_self _ _ _ _ he] at hne ⊢
      constructor
      · simp only [List.length_append, List.length_cons, List.length_nil]
        omega
      · exact getD_append_last _ _ _
    · rw [getD_set_ne _ _ _ (fun h => hee h.symm)] at hne ⊢
      obtain ⟨hj1, hj2⟩ := hfwd ent hlen hne
      constructor
      · simp only [List.length_append, List.length_cons, List.length_nil]
        omega
      · rw [getD_append_left _ _ _ _ (by omega)]
        exact hj2
  · intro i hi
    simp only [List.length_append, List.length_cons, List.length_nil] at hi
    by_cases hii : i = p.back.length
    · subst hii
      rw [getD_append_last]
      constructor
      · simpa using he
      · rw [getD_set_self _ _ _ _ he]
    · rw [getD_append_left _ _ _ _ (by omega)]
      obtain ⟨h1, h2⟩ := hback i (by omega)
      have hne2 : p.back.getD i 0 ≠ e := by
        intro hx
        rw [hx] at h2
        rw [habs] at h2
        omega
      constructor
      · simpa using h1
      · rw [getD_set_ne _ _ _ (fun h => hne2 h.symm)]
        exact h2

/-- The invariant is preserved by the unchecked insert of an absent entity. -/
theorem add_fast_wf (p : component_pool C) (e : Nat) (v : C) (hwf : wf p)
    (habs : p.forward.getD e invalid_component_index = invalid_component_index)
    (hroom : p.data.length + 1 < invalid_component_index) :
    wf (add_element_fast p e v) := by
  unfold add_element_fast
  split
  · rename_i hge
    refine add_core_wf _ e v (resize_wf p e hwf) ?_ ?_ hroom
    · exact resize_forward_covers p.forward e (by omega)
    · rw [resize_forward_getD]
      exact habs
  · rename_i hlt
    exact add_core_wf p e v hwf (by omega) habs hroom

/-- The invariant is preserved by the checked insert. -/
theorem add_element_wf (p : component_pool C) (e : Nat) (v : C) (hwf : wf p)
    (hroom : p.data.length + 1 < invalid_component_index) :
    wf (add_element p e v).2 := by
  rcases Nat.lt_or_ge e p.forward.length with hlt | hge
  · by_cases habs : p.forward.getD e invalid_component_index = invalid_component_index
    · have hshape : add_element p e v = (cres.ok (), add_core p e v) := by
        unfold add_element
        rw [if_neg (by omega), if_neg (fun hcon => hcon habs)]
      rw [hshape]
      exact add_core_wf p e v hwf hlt habs hroom
    · have hshape : add_element p e v = (cres.err error.component_already_exists, p) := by
        unfold add_element
        rw [if_neg (by omega), if_pos habs]
      rw [hshape]
      exact hwf
  · have hshape : add_element p e v =
        (cres.ok (), add_core { p with forward := resize_forward p.forward e } e v) := by
      unfold add_element
      rw [if_pos (by omega)]
    rw [hshape]
    refine add_core_wf _ e v (resize_wf p e hwf) ?_ ?_ hroom
    · exact resize_forward_covers p.forward e (by omega)
    · rw [resize_forward_getD]
      exact getD_oob _ _ _ (by omega)

/-- The invariant is preserved by the checked removal. -/
theorem remove_element_wf (p : component_pool C) (e : Nat) (hwf : wf p) :
    wf (remove_element p e).2 := by
  unfold remove_element
  split
  · exact hwf
  · rename_i hcond
    cases hge : p.forward.get? e with
    | none => exact hwf
    | some idx =>
      simp only []
      split
      · exact hwf
      · rename_i hninv
        cases hrc : p.refcounts.get? idx with
        | none => exact hwf
        | some rc =>
          simp only []
          split
          · exact hwf
          · refine remove_fast_wf p e hwf ?_
            unfold has_component
            rw [if_neg hcond]
            have : p.forward.getD e invalid_component_index = idx := by
              rw [List.getD_eq_getElem?_getD, ← List.get?_eq_getElem?, hge]
              rfl
            rw [this]
            simpa using hninv

/-- Under the invariant presence is exactly a non sentinel sparse entry. -/
theorem wf_has_iff (p : component_pool C) (hwf : wf p) (e : Nat) :
    has_component p e = true ↔
      p.forward.getD e invalid_component_index ≠ invalid_component_index := by
  rw [has_component_true_iff]
  constructor
  · rintro ⟨_, h⟩
    exact h
  · intro h
    refine ⟨?_, h⟩
    have he := getD_ne_default_lt _ _ _ h
    obtain ⟨hb, _, _, _, hfwd, _⟩ := hwf
    obtain ⟨h1, _⟩ := hfwd e he h
    omega

/-! ### Sequences of pool operations -/

/-- A pool operation: checked insert, unchecked insert, checked removal,
unchecked removal; component values are Nat here. -/
inductive op where
  | addc (e : Nat) (v : Nat)
  | addf (e : Nat) (v : Nat)
  | rmc (e : Nat)
  | rmf (e : Nat)
deriving DecidableEq, Repr

/-- The pool state after one operation (the checked variants keep the state
returned by the operation, which is unchanged on the error paths). -/
def step (p : component_pool Nat) : op → component_pool Nat
  | op.addc e v => (add_element p e v).2
  | op.addf e v => add_element_fast p e v
  | op.rmc e => (remove_element p e).2
  | op.rmf e => remove_element_fast p e

/-- The stated precondition of each operation: fast insert requires an absent,
non sentinel entity; fast removal requires a present, unreferenced component;
an insert additionally requires that the grown pool stays below the size_t
sentinel, which every real std vector satisfies. -/
def pre (p : component_pool Nat) : op → Bool
  | op.addc _ _ => decide (p.data.length + 1 < invalid_component_index)
  | op.addf e _ =>
      decide (p.forward.getD e invalid_component_index = invalid_component_index) &&
      decide (e ≠ invalid_entity) &&
      decide (p.data.length + 1 < invalid_component_index)
  | op.rmc _ => true
  | op.rmf e =>
      has_component p e &&
      decide (p.refcounts.getD (p.forward.getD e invalid_component_index) 0 = 0)

/-- Run a sequence of pool operations. -/
def run (p : component_pool Nat) : List op → component_pool Nat
  | [] => p
  | o :: rest => run (step p o) rest

/-- All preconditions hold along a trace. -/
def trace_ok (p : component_pool Nat) : List op → Bool
  | [] => true
  | o :: rest => pre p o && trace_ok (step p o) rest

theorem wf_empty : wf ({} : component_pool Nat) := by
  refine ⟨rfl, rfl, rfl, by decide, ?_, ?_⟩
  · intro ent hlen _
    simp at hlen
  · intro i hi
    simp at hi

/-- One step with its precondition preserves the pool invariant. -/
theorem step_wf (p : component_pool Nat) (o : op) (hwf : wf p)
    (hpre : pre p o = true) : wf (step p o) := by
  cases o with
  | addc e v =>
    simp only [pre, decide_eq_true_eq] at hpre
    exact add_element_wf p e v hwf hpre
  | addf e v =>
    simp only [pre, Bool.and_eq_true, decide_eq_true_eq] at hpre
    exact add_fast_wf p e v hwf hpre.1.1 hpre.2
  | rmc e => exact remove_element_wf p e hwf
  | rmf e =>
    simp only [pre, Bool.and_eq_true, decide_eq_true_eq] at hpre
    exact remove_fast_wf p e hwf hpre.1

/-- Any precondition respecting trace preserves the pool invariant. -/
theorem run_wf (ops : List op) : ∀ (p : component_pool Nat), wf p →
    trace_ok p ops = true → wf (run p ops) := by
  induction ops with
  | nil =>
    intro p hwf _
    exact hwf
  | cons o rest ih =>
    intro p hwf htr
    simp only [trace_ok, Bool.and_eq_true] at htr
    exact ih (step p o) (step_wf p o hwf htr.1) htr.2

/-! ### The handle of src/ecs.h -/

/-- smart_ref of src/ecs.h: pool pointer (modelled by alive), entity, and the
generation snapshot taken at construction. -/
structure smart_ref where
  alive : Bool := false
  e : Nat := 0
  generation : Nat := 0
deriving DecidableEq, Repr

/-- The constructor smart_ref(pool, entity): captures the generation of the
slot of the entity and increments the reference count of that slot. -/
def smart_ref_mk (p : component_pool C) (ent : Nat) : smart_ref × component_pool C :=
  let idx := p.forward.getD ent invalid_component_index
  ({ alive := true, e := ent, generation := get_generation p ent },
   { p with refcounts := p.refcounts.set idx ((p.refcounts.getD idx 0 + 1) % u32) })

/-- smart_ref::valid of src/ecs.h: the pool pointer is set, the pool still has
a component for the entity, and the generation at the current dense slot of
the entity equals the captured generation. -/
def smart_ref_valid (h : smart_ref) (p : component_pool C) : Bool :=
  if h.alive = false ∨ has_component p h.e = false then false
  else decide (p.generations.getD (p.forward.getD h.e invalid_component_index) 0 = h.generation)

end EcsH

namespace EcsHpp

/-! ## Model of src/ecs.hpp (no generation tags) -/

/-- The packed pool of src/ecs.hpp: as in ecs.h but with no generation array
and no generation counter. -/
structure component_pool (C : Type) where
  data : List C := []
  back : List Nat := []
  forward : List Nat := []
  refcounts : List Nat := []
deriving DecidableEq, Repr

variable {C : Type}

/-- The shared tail of add_element and add_element_fast. -/
def add_core (p : component_pool C) (e : Nat) (v : C) : component_pool C :=
  { p with
    forward := p.forward.set e p.back.length
    back := p.back ++ [e]
    data := p.data ++ [v]
    refcounts := p.refcounts ++ [0] }

/-- Checked insert, component_pool::add_element. -/
def add_element (p : component_pool C) (e : Nat) (v : C) : cres Unit × component_pool C :=
  if e ≥ p.forward.length then
    (cres.ok (), add_core { p with forward := EcsH.resize_forward p.forward e } e v)
  else if p.forward.getD e invalid_component_index ≠ invalid_component_index then
    (cres.err error.component_already_exists, p)
  else
    (cres.ok (), add_core p e v)

/-- Unchecked insert, component_pool::add_element_fast. -/
def add_element_fast (p : component_pool C) (e : Nat) (v : C) : component_pool C :=
  if e ≥ p.forward.length then
    add_core { p with forward := EcsH.resize_forward p.forward e } e v
  else
    add_core p e v

/-- Unchecked swap and pop removal, component_pool::remove_element_fast. -/
def remove_element_fast (p : component_pool C) (e : Nat) : component_pool C :=
  let idx := p.forward.getD e invalid_component_index
  let last := p.data.length - 1
  let p1 :=
    if idx ≠ last then
      let ps : component_pool C := { p with
        data := lswap p.data idx last
        back := lswap p.back idx last
        refcounts := lswap p.refcounts idx last }
      { ps with forward := ps.forward.set (ps.back.getD idx 0) idx }
    else p
  { p1 with
    data := p1.data.dropLast
    back := p1.back.dropLast
    refcounts := p1.refcounts.dropLast
    forward := p1.forward.set e invalid_component_index }

/-- Checked removal, component_pool::remove_element. -/
def remove_element (p : component_pool C) (e : Nat) : cres Unit × component_pool C :=
  if p.forward.length = 0 ∨ p.back.length = 0 then
    (cres.err error.component_does_not_exist, p)
  else
    match p.forward.get? e with
    | none => (cres.ub, p)
    | some idx =>
      if idx = invalid_component_index then
        (cres.err error.component_does_not_exist, p)
      else
        match p.refcounts.get? idx with
        | none => (cres.ub, p)
        | some rc =>
          if rc ≠ 0 then (cres.err error.component_has_references, p)
          else (cres.ok (), remove_element_fast p e)

/-- Checked lookup, component_pool::get_element. -/
def get_element (p : component_pool C) (e : Nat) : cres C :=
  if p.forward.length = 0 ∨ p.back.length = 0 then
    cres.err error.component_does_not_exist
  else
    match p.forward.get? e with
    | none => cres.ub
    | some idx =>
      if idx = invalid_component_index then
        cres.err error.component_does_not_exist
      else
        match p.data.get? idx with
        | none => cres.ub
        | some v => cres.ok v

/-- component_pool::has_component. -/
def has_component (p : component_pool C) (e : Nat) : Bool :=
  if p.forward.length = 0 ∨ p.back.length = 0 then false
  else decide (p.forward.getD e invalid_component_index ≠ invalid_component_index)

/-- The pool side invariant for the ecs.hpp pool. -/
def wf (p : component_pool C) : Prop :=
  p.back.length = p.data.length ∧
  p.refcounts.length = p.data.length ∧
  p.data.length < invalid_component_index ∧
  (∀ ent, ent < p.forward.length →
    p.forward.getD ent invalid_component_index ≠ invalid_component_index →
    p.forward.getD ent invalid_component_index < p.data.length ∧
    p.back.getD (p.forward.getD ent invalid_component_index) 0 = ent) ∧
  (∀ i, i < p.back.length →
    p.back.getD i 0 < p.forward.length ∧
    p.forward.getD (p.back.getD i 0) invalid_component_index = i)

instance (p : component_pool C) : Decidable (wf p) := by
  unfold wf
  exact inferInstance

/-- has_component spelt out, ecs.hpp pool. -/
theorem hpp_has_component_true_iff (p : component_pool C) (e : Nat) :
    has_component p e = true ↔
      (p.back.length ≠ 0 ∧
       p.forward.getD e invalid_component_index ≠ invalid_component_index) := by
  unfold has_component
  by_cases h1 : p.forward.length = 0
  · have hf : p.forward = [] := List.length_eq_zero.mp h1
    simp [h1, hf, invalid_component_index]
  · by_cases h2 : p.back.length = 0
    · simp [h1, h2]
    · simp [h1, h2]

/-- Basic consequences of wf and presence, ecs.hpp pool. -/
theorem hpp_wf_has_facts (p : component_pool C) (e : Nat) (hwf : wf p)
    (hhas : has_component p e = true) :
    e < p.forward.length ∧
    p.forward.getD e invalid_component_index < p.data.length ∧
    p.back.getD (p.forward.getD e invalid_component_index) 0 = e ∧
    0 < p.data.length := by
  obtain ⟨hb, _, _, hfwd, _⟩ := hwf
  obtain ⟨hb0, hne⟩ := (hpp_has_component_true_iff p e).mp hhas
  have he : e < p.forward.length := EcsH.getD_ne_default_lt _ _ _ hne
  obtain ⟨h1, h2⟩ := hfwd e he hne
  exact ⟨he, h1, h2, by omega⟩

/-- After the unchecked removal the sparse entry of the entity is cleared. -/
theorem remove_fast_forward_e (p : component_pool C) (e : Nat)
    (he : e < p.forward.length) :
    (remove_element_fast p e).forward.getD e invalid_component_index =
      invalid_component_index := by
  unfold remove_element_fast
  simp only []
  split
  · exact getD_set_self _ _ _ _ (by simpa using he)
  · exact getD_set_self _ _ _ _ (by simpa using he)

/-- The removed entity is no longer present after remove_element_fast. -/
theorem hpp_remove_fast_has_false (p : component_pool C) (e : Nat)
    (he : e < p.forward.length) :
    has_component (remove_element_fast p e) e = false := by
  have hfe := remove_fast_forward_e p e he
  cases hh : has_component (remove_element_fast p e) e
  · rfl
  · obtain ⟨_, hne⟩ := (hpp_has_component_true_iff _ e).mp hh
    exact absurd hfe hne

/-- The two outcomes of the checked removal of a present component: blocked
with component_has_references and unchanged while the slot count is nonzero,
delegation to the unchecked removal once it is zero. -/
theorem remove_element_spec (p : component_pool C) (e : Nat) (hwf : wf p)
    (hhas : has_component p e = true) :
    (p.refcounts.getD (p.forward.getD e invalid_component_index) 0 ≠ 0 →
      remove_element p e = (cres.err error.component_has_references, p)) ∧
    (p.refcounts.getD (p.forward.getD e invalid_component_index) 0 = 0 →
      remove_element p e = (cres.ok (), remove_element_fast p e)) := by
  obtain ⟨he, hidx, hbe, hn⟩ := hpp_wf_has_facts p e hwf hhas
  obtain ⟨hb0, hne⟩ := (hpp_has_component_true_iff p e).mp hhas
  obtain ⟨hb, hr, hbound, hfwd, hback⟩ := hwf
  have hlen : ¬(p.forward.length = 0 ∨ p.back.length = 0) := by omega
  have hget : p.forward.get? e =
      some (p.forward.getD e invalid_component_index) :=
    getD_lt_eq p.forward e invalid_component_index he
  have hrcget : p.refcounts.get? (p.forward.getD e invalid_component_index) =
      some (p.refcounts.getD (p.forward.getD e invalid_component_index) 0) :=
    getD_lt_eq p.refcounts _ 0 (by omega)
  constructor
  · intro hrc
    unfold remove_element
    rw [if_neg hlen, hget]
    simp only [if_neg hne, hrcget, if_pos hrc]
  · intro hrc
    unfold remove_element
    rw [if_neg hlen, hget]
    simp only [if_neg hne, hrcget]
    rw [if_neg (by omega)]

/-! ### The handle of src/ecs.hpp -/

/-- smart_ref of src/ecs.hpp: a pool pointer (modelled by the flag alive,
since every live handle of a scenario points at the one modelled pool) and
the entity.  There is no generation snapshot in this variant. -/
structure smart_ref where
  alive : Bool := false
  entity : Nat := 0
deriving DecidableEq, Repr

/-- The constructor smart_ref(pool, entity): increments the reference count of
the slot of the entity. -/
def smart_ref_mk (p : component_pool C) (ent : Nat) : smart_ref × component_pool C :=
  let idx := p.forward.getD ent invalid_component_index
  ({ alive := true, entity := ent },
   { p with refcounts := p.refcounts.set idx ((p.refcounts.getD idx 0 + 1) % u32) })

/-- The destructor of smart_ref: decrement the slot count if the pool pointer
is set and the pool still has a component for the entity. -/
def smart_ref_drop (h : smart_ref) (p : component_pool C) : component_pool C :=
  if h.alive ∧ has_component p h.entity then
    let idx := p.forward.getD h.entity invalid_component_index
    if idx ≠ invalid_component_index then
      { p with refcounts := p.refcounts.set idx ((p.refcounts.getD idx 0 + (u32 - 1)) % u32) }
    else p
  else p

/-- The copy constructor: same fields, one more reference if the component is
still present. -/
def smart_ref_copy (h : smart_ref) (p : component_pool C) : smart_ref × component_pool C :=
  if h.alive ∧ has_component p h.entity then
    let idx := p.forward.getD h.entity invalid_component_index
    ({ alive := h.alive, entity := h.entity },
     { p with refcounts := p.refcounts.set idx ((p.refcounts.getD idx 0 + 1) % u32) })
  else ({ alive := h.alive, entity := h.entity }, p)

/-- The move constructor: the new handle takes the fields, the moved from
handle loses its pool pointer; the pool is not touched. -/
def smart_ref_move (h : smart_ref) : smart_ref × smart_ref :=
  ({ alive := h.alive, entity := h.entity }, { alive := false, entity := 0 })

/-- smart_ref::valid of src/ecs.hpp: presence only, no generation check. -/
def smart_ref_valid (h : smart_ref) (p : component_pool C) : Bool :=
  if h.alive = false ∨ has_component p h.entity = false then false
  else true

/-- Number of live (not moved from) handles in a list. -/
def countLive (hs : List smart_ref) : Nat :=
  (hs.filter (fun h => h.alive)).length

/-- Dropping any interleaving of n live handles of one slot and arbitrarily
many moved from handles lowers the slot count by exactly n and touches no
other pool field. -/
theorem drop_all_refcounts (e : Nat) (hs : List smart_ref) :
    ∀ (p : component_pool Nat) (r : Nat),
    (∀ h ∈ hs, h.alive = true → h.entity = e) →
    has_component p e = true →
    p.forward.getD e invalid_component_index < p.refcounts.length →
    p.refcounts.getD (p.forward.getD e invalid_component_index) 0 = r + countLive hs →
    r + countLive hs < u32 →
    ((hs.foldl (fun q h => smart_ref_drop h q) p).refcounts.getD
        (p.forward.getD e invalid_component_index) 0 = r ∧
     (hs.foldl (fun q h => smart_ref_drop h q) p).data = p.data ∧
     (hs.foldl (fun q h => smart_ref_drop h q) p).back = p.back ∧
     (hs.foldl (fun q h => smart_ref_drop h q) p).forward = p.forward) := by
  induction hs with
  | nil =>
    intro p r _ _ _ hrc _
    refine ⟨?_, rfl, rfl, rfl⟩
    simpa [countLive] using hrc
  | cons h hs ih =>
    intro p r hall hhas hlt hrc hbound
    have hu : 0 < u32 := by decide
    obtain ⟨_, hne⟩ := (hpp_has_component_true_iff p e).mp hhas
    by_cases ha : h.alive = true
    · have hent : h.entity = e := hall h (by simp) ha
      have hcount : countLive (h :: hs) = countLive hs + 1 := by
        simp [countLive, ha]
      have harith :
          (p.refcounts.getD (p.forward.getD e invalid_component_index) 0 + (u32 - 1)) % u32 =
            r + countLive hs := by
        rw [hrc, hcount]
        have hstep : r + (countLive hs + 1) + (u32 - 1) = r + countLive hs + u32 := by
          omega
        rw [hstep, Nat.add_mod_right]
        refine Nat.mod_eq_of_lt ?_
        rw [hcount] at hbound
        omega
      have hdropeq : smart_ref_drop h p =
          { p with
            refcounts :=
              p.refcounts.set (p.forward.getD e invalid_component_index)
                ((p.refcounts.getD (p.forward.getD e invalid_component_index) 0 +
                  (u32 - 1)) % u32) } := by
        unfold smart_ref_drop
        rw [hent, if_pos ⟨ha, hhas⟩, if_pos hne]
      rw [hcount] at hrc hbound
      simp only [List.foldl_cons, hdropeq]
      have hres := ih
        ({ p with
           refcounts :=
             p.refcounts.set (p.forward.getD e invalid_component_index)
               ((p.refcounts.getD (p.forward.getD e invalid_component_index) 0 +
                 (u32 - 1)) % u32) })
        r (fun g hg hga => hall g (by simp [hg]) hga) hhas
        (by simpa using hlt)
        (by
          rw [getD_set_self _ _ _ _ hlt]
          exact harith)
        (by omega)
      simpa using hres
    · have hcount : countLive (h :: hs) = countLive hs := by
        simp [countLive, ha]
      have hdropeq : smart_ref_drop h p = p := by
        unfold smart_ref_drop
        rw [if_neg (fun hcon => ha hcon.1)]
      rw [hcount] at hrc hbound
      simp only [List.foldl_cons, hdropeq]
      exact ih p r (fun g hg hga => hall g (by simp [hg]) hga) hhas hlt hrc hbound

/-! ### The storage container of src/ecs.hpp, instantiated at two component
types as in test.cpp (ecs of v3 and test_data); component values are
modelled as Nat. -/

/-- The ecs container: one pool per component type, the live entity list and
the 32 bit entity counter. -/
structure ecs2 where
  pa : component_pool Nat := {}
  pb : component_pool Nat := {}
  entities : List Nat := []
  counter : Nat := 0
deriving DecidableEq, Repr

/-- ecs::add_entity: pushes the current counter value onto the live list,
advances the 32 bit counter, and returns the pushed value. -/
def add_entity (s : ecs2) : Nat × ecs2 :=
  (s.counter,
   { s with entities := s.entities ++ [s.counter], counter := (s.counter + 1) % u32 })

/-- The per pool body of the checked_remove lambda of ecs::remove_components
in lax mode: remove when present, otherwise report success. -/
def checked_remove_lax (p : component_pool Nat) (e : Nat) : cres Unit × component_pool Nat :=
  if has_component p e then remove_element p e
  else (cres.ok (), p)

/-- ecs::remove_components in checked lax mode over the two pools: the
membership test runs first, then each pool is tried while the accumulated
result is still success. -/
def remove_components_checked_lax (s : ecs2) (e : Nat) : cres Unit × ecs2 :=
  if e ∈ s.entities then
    let ra := checked_remove_lax s.pa e
    let s1 : ecs2 := { s with pa := ra.2 }
    match ra.1 with
    | cres.ok _ =>
      let rb := checked_remove_lax s1.pb e
      (rb.1, { s1 with pb := rb.2 })
    | r => (r, s1)
  else (cres.err error.no_such_entity, s)

/-- ecs::remove_entity in checked mode: erase the entity from the live list
when found, then run the checked lax bulk removal and propagate its result. -/
def remove_entity_checked (s : ecs2) (e : Nat) : cres Unit × ecs2 :=
  if e ∈ s.entities then
    let s1 : ecs2 := { s with entities := s.entities.erase e }
    let r := remove_components_checked_lax s1 e
    match r.1 with
    | cres.ok _ => (cres.ok (), r.2)
    | x => (x, r.2)
  else (cres.err error.no_such_entity, s)

/-! ### Entity level operation sequences -/

/-- An entity lifecycle operation on the container. -/
inductive eop where
  | create
  | remove (e : Nat)
deriving DecidableEq, Repr

/-- Run a sequence of entity operations. -/
def run_entity_ops (s : ecs2) : List eop → ecs2
  | [] => s
  | eop.create :: rest => run_entity_ops (add_entity s).2 rest
  | eop.remove e :: rest => run_entity_ops (remove_entity_checked s e).2 rest

/-- The identifiers returned by the create operations of a sequence. -/
def entity_outputs (s : ecs2) : List eop → List Nat
  | [] => []
  | eop.create :: rest => (add_entity s).1 :: entity_outputs (add_entity s).2 rest
  | eop.remove e :: rest => entity_outputs (remove_entity_checked s e).2 rest

/-- Number of create operations in a sequence. -/
def creates_count : List eop → Nat
  | [] => 0
  | eop.create :: rest => creates_count rest + 1
  | eop.remove _ :: rest => creates_count rest

/-! ### The query view of src/ecs.hpp over two pools -/

/-- view::iterator::_has_all over the two pools. -/
def has_all (pa pb : component_pool Nat) (e : Nat) : Bool :=
  has_component pa e && has_component pb e

/-- The loop body of view::iterator::_skip_non_matching, with fuel that
counts the remaining slots (the source loop runs while the index is below the
size of the driving pool, so dback.length - i steps always suffice, and the
fuel 0 case coincides with the loop exit). -/
def skip_non_matching_fuel (pa pb : component_pool Nat) (dback : List Nat) :
    Nat → Nat → Nat
  | 0, i => i
  | fuel + 1, i =>
    if i < dback.length then
      if has_all pa pb (dback.getD i 0) then i
      else skip_non_matching_fuel pa pb dback fuel (i + 1)
    else i

/-- view::iterator::_skip_non_matching: advance the index over the dense
owner array of the driving pool until it hits an entity present in all pools
or the end. -/
def skip_non_matching (pa pb : component_pool Nat) (dback : List Nat) (i : Nat) : Nat :=
  skip_non_matching_fuel pa pb dback (dback.length - i) i

/-- The entities visited by a full loop from view::begin to view::end, with
fuel (the index grows by at least one per yielded element, so
dback.length + 1 - i steps always suffice): the index starts at 0 without a
filtering step, the element under the index is yielded, and operator++
advances by one and then skips non matching entities. -/
def view_iterate_fuel (pa pb : component_pool Nat) (dback : List Nat) :
    Nat → Nat → List Nat
  | 0, _ => []
  | fuel + 1, i =>
    if i < dback.length then
      dback.getD i 0 ::
        view_iterate_fuel pa pb dback fuel (skip_non_matching pa pb dback (i + 1))
    else []

/-- The entities yielded when iterating view over the pools pa and pb of a
container: the driving pool is the one with the fewest live entries, the
first pool winning ties. -/
def view_entities (pa pb : component_pool Nat) : List Nat :=
  let dback := if pb.back.length < pa.back.length then pb.back else pa.back
  view_iterate_fuel pa pb dback (dback.length + 1) 0

/-- Replacing the reference count array by one of equal length preserves the
invariant; only the count at the written slot changes. -/
theorem wf_refcounts_set (p : component_pool C) (i v : Nat) (hwf : wf p) :
    wf { p with refcounts := p.refcounts.set i v } := by
  obtain ⟨hb, hr, hbound, hfwd, hback⟩ := hwf
  exact ⟨hb, by simpa using hr, hbound, hfwd, hback⟩

/-- Presence ignores the reference count array. -/
theorem has_component_refcounts (p : component_pool C) (l : List Nat) (e : Nat) :
    has_component { p with refcounts := l } e = has_component p e := rfl

/-- The first component of the handle constructor. -/
theorem smart_ref_mk_fst (p : component_pool C) (e : Nat) :
    (smart_ref_mk p e).1 = { alive := true, entity := e } := rfl

/-- The second component of the handle constructor. -/
theorem smart_ref_mk_snd (p : component_pool C) (e : Nat) :
    (smart_ref_mk p e).2 =
      { p with
        refcounts :=
          p.refcounts.set (p.forward.getD e invalid_component_index)
            ((p.refcounts.getD (p.forward.getD e invalid_component_index) 0 + 1) % u32) } :=
  rfl

/-- Dropping a live handle of a present component decrements the slot count
(32 bit wraparound decrement). -/
theorem smart_ref_drop_live (q : component_pool C) (e : Nat)
    (hhas : has_component q e = true)
    (hne : q.forward.getD e invalid_component_index ≠ invalid_component_index) :
    smart_ref_drop { alive := true, entity := e } q =
      { q with
        refcounts :=
          q.refcounts.set (q.forward.getD e invalid_component_index)
            ((q.refcounts.getD (q.forward.getD e invalid_component_index) 0
              + (u32 - 1)) % u32) } := by
  unfold smart_ref_drop
  split
  · simp only []
    split
    · rfl
    · rename_i hcon
      exact absurd hne hcon
  · rename_i hcon
    exact absurd ⟨rfl, hhas⟩ hcon

/-- The bulk removal keeps the entity counter. -/
theorem remove_components_counter (s : ecs2) (e : Nat) :
    (remove_components_checked_lax s e).2.counter = s.counter := by
  unfold remove_components_checked_lax
  split
  · simp only []
    split <;> rfl
  · rfl

/-- The bulk removal keeps the entity list. -/
theorem remove_components_entities (s : ecs2) (e : Nat) :
    (remove_components_checked_lax s e).2.entities = s.entities := by
  unfold remove_components_checked_lax
  split
  · simp only []
    split <;> rfl
  · rfl

/-- Checked entity removal keeps the entity counter. -/
theorem remove_entity_checked_counter (s : ecs2) (e : Nat) :
    (remove_entity_checked s e).2.counter = s.counter := by
  unfold remove_entity_checked
  split
  · have hh := remove_components_counter { s with entities := s.entities.erase e } e
    simp only []
    split
    · exact hh
    · exact hh
  · rfl

/-- The identifiers returned by the create operations of a trace starting at
counter c are c, c + 1, ... as long as the counter cannot wrap. -/
theorem entity_outputs_eq (ops : List eop) :
    ∀ s : ecs2, s.counter + creates_count ops ≤ u32 →
    entity_outputs s ops = (List.range (creates_count ops)).map (fun i => s.counter + i) := by
  induction ops with
  | nil =>
    intro s _
    simp [entity_outputs, creates_count]
  | cons o rest ih =>
    intro s hle
    cases o with
    | create =>
      simp only [creates_count] at hle
      by_cases hc : s.counter + 1 < u32
      · have hcnt : (add_entity s).2.counter = s.counter + 1 := by
          show (s.counter + 1) % u32 = s.counter + 1
          exact Nat.mod_eq_of_lt hc
        have hrest := ih (add_entity s).2 (by rw [hcnt]; omega)
        rw [hcnt] at hrest
        show s.counter :: entity_outputs (add_entity s).2 rest =
          List.map (fun i => s.counter + i) (List.range (creates_count rest + 1))
        rw [hrest, List.range_succ_eq_map]
        simp only [List.map_cons, List.map_map, Nat.add_zero]
        refine congrArg (s.counter :: ·) ?_
        refine List.map_congr_left ?_
        intro a _
        simp only [Function.comp]
        omega
      · have hzero : creates_count rest = 0 := by omega
        have hcnt : (add_entity s).2.counter = (s.counter + 1) % u32 := rfl
        have hrest := ih (add_entity s).2 (by
          rw [hcnt, hzero]
          have := Nat.mod_lt (s.counter + 1) (show 0 < u32 by decide)
          omega)
        rw [hzero] at hrest
        show s.counter :: entity_outputs (add_entity s).2 rest =
          List.map (fun i => s.counter + i) (List.range (creates_count rest + 1))
        rw [hrest, hzero]
        simp [List.range_succ]
    | remove e =>
      simp only [creates_count] at hle
      have hcnt := remove_entity_checked_counter s e
      have hrest := ih (remove_entity_checked s e).2 (by rw [hcnt]; omega)
      rw [hcnt] at hrest
      show entity_outputs (remove_entity_checked s e).2 rest =
        List.map (fun i => s.counter + i) (List.range (creates_count rest))
      rw [hrest]

/-- Outputs split along trace concatenation. -/
theorem entity_outputs_append (ops1 ops2 : List eop) :
    ∀ s : ecs2, entity_outputs s (ops1 ++ ops2) =
      entity_outputs s ops1 ++ entity_outputs (run_entity_ops s ops1) ops2 := by
  induction ops1 with
  | nil =>
    intro s
    rfl
  | cons o rest ih =>
    intro s
    cases o with
    | create =>
      show (add_entity s).1 :: entity_outputs (add_entity s).2 (rest ++ ops2) = _
      rw [ih (add_entity s).2]
      rfl
    | remove e =>
      show entity_outputs (remove_entity_checked s e).2 (rest ++ ops2) = _
      rw [ih (remove_entity_checked s e).2]
      rfl

/-- The entity counter after k creations, modulo 2 to the 32. -/
theorem run_counter_creates (k : Nat) :
    ∀ s : ecs2, s.counter < u32 →
    (run_entity_ops s (List.replicate k eop.create)).counter = (s.counter + k) % u32 := by
  induction k with
  | zero =>
    intro s hlt
    simpa using (Nat.mod_eq_of_lt hlt).symm
  | succ k ih =>
    intro s hlt
    have hstep : (add_entity s).2.counter = (s.counter + 1) % u32 := rfl
    have hrec := ih (add_entity s).2
      (by rw [hstep]; exact Nat.mod_lt _ (by decide))
    show (run_entity_ops (add_entity s).2 (List.replicate k eop.create)).counter = _
    rw [hrec, hstep, Nat.mod_add_mod]
    refine congrArg (· % u32) ?_
    omega

end EcsHpp

/-! ## Claim theorems -/

/-- Claim C10: whenever checked add_element or remove_element returns an
error (component_already_exists, component_does_not_exist or
component_has_references), the entire pool state, the generation counter
included, is exactly as before the call; no partial mutation is observable on
the error path. -/
theorem c10_error_atomicity (p : EcsH.component_pool Nat) (e v : Nat) (r : error) :
    ((EcsH.add_element p e v).1 = cres.err r → (EcsH.add_element p e v).2 = p) ∧
    ((EcsH.remove_element p e).1 = cres.err r → (EcsH.remove_element p e).2 = p) := by
  constructor
  · intro hres
    rcases Nat.lt_or_ge e p.forward.length with hlt | hge
    · by_cases habs : p.forward.getD e invalid_component_index = invalid_component_index
      · have hshape : EcsH.add_element p e v = (cres.ok (), EcsH.add_core p e v) := by
          unfold EcsH.add_element
          rw [if_neg (by omega), if_neg (fun hcon => hcon habs)]
        rw [hshape] at hres
        exact absurd hres (by simp)
      · have hshape : EcsH.add_element p e v =
            (cres.err error.component_already_exists, p) := by
          unfold EcsH.add_element
          rw [if_neg (by omega), if_pos habs]
        rw [hshape]
    · have hshape : EcsH.add_element p e v =
          (cres.ok (), EcsH.add_core
            { p with forward := EcsH.resize_forward p.forward e } e v) := by
        unfold EcsH.add_element
        rw [if_pos (by omega)]
      rw [hshape] at hres
      exact absurd hres (by simp)
  · unfold EcsH.remove_element
    split
    · intro _
      rfl
    · split
      · intro _
        rfl
      · split
        · intro _
          rfl
        · split
          · intro _
            rfl
          · split
            · intro _
              rfl
            · intro hres
              exact absurd hres (by simp)

theorem c10_error_atomicity_witness :
    (EcsH.add_element (EcsH.add_element_fast ({} : EcsH.component_pool Nat) 0 5) 0 7).2 =
      EcsH.add_element_fast ({} : EcsH.component_pool Nat) 0 5 ∧
    (EcsH.remove_element
        (EcsH.smart_ref_mk (EcsH.add_element_fast ({} : EcsH.component_pool Nat) 0 5) 0).2 0).2 =
      (EcsH.smart_ref_mk (EcsH.add_element_fast ({} : EcsH.component_pool Nat) 0 5) 0).2 :=
  ⟨(c10_error_atomicity (EcsH.add_element_fast ({} : EcsH.component_pool Nat) 0 5) 0 7
      error.component_already_exists).1 (by decide),
   (c10_error_atomicity
      (EcsH.smart_ref_mk (EcsH.add_element_fast ({} : EcsH.component_pool Nat) 0 5) 0).2 0 0
      error.component_has_references).2 (by decide)⟩

/-- Claim C4: for a pool satisfying the invariant with entity e present and
its slot unreferenced, the swap and pop removal leaves all four dense arrays
exactly one entry shorter and of equal length (no gaps), clears the sparse
entry of e, and, when the removed slot i was not the last slot, the former
last entries of data, owner, generation and refcount now sit at slot i and
the sparse entry of the moved owner points at i. -/
theorem c4_swap_pop_compaction (p : EcsH.component_pool Nat) (e : Nat)
    (hwf : EcsH.wf p) (hhas : EcsH.has_component p e = true)
    (hrc : p.refcounts.getD (p.forward.getD e invalid_component_index) 0 = 0) :
    ((EcsH.remove_element_fast p e).data.length + 1 = p.data.length ∧
     (EcsH.remove_element_fast p e).back.length =
       (EcsH.remove_element_fast p e).data.length ∧
     (EcsH.remove_element_fast p e).generations.length =
       (EcsH.remove_element_fast p e).data.length ∧
     (EcsH.remove_element_fast p e).refcounts.length =
       (EcsH.remove_element_fast p e).data.length) ∧
    (EcsH.remove_element_fast p e).forward.getD e invalid_component_index =
      invalid_component_index ∧
    (p.forward.getD e invalid_component_index ≠ p.data.length - 1 →
      (EcsH.remove_element_fast p e).data.getD
          (p.forward.getD e invalid_component_index) 0 =
        p.data.getD (p.data.length - 1) 0 ∧
      (EcsH.remove_element_fast p e).back.getD
          (p.forward.getD e invalid_component_index) 0 =
        p.back.getD (p.data.length - 1) 0 ∧
      (EcsH.remove_element_fast p e).generations.getD
          (p.forward.getD e invalid_component_index) 0 =
        p.generations.getD (p.data.length - 1) 0 ∧
      (EcsH.remove_element_fast p e).refcounts.getD
          (p.forward.getD e invalid_component_index) 0 =
        p.refcounts.getD (p.data.length - 1) 0 ∧
      (EcsH.remove_element_fast p e).forward.getD (p.back.getD (p.data.length - 1) 0)
          invalid_component_index =
        p.forward.getD e invalid_component_index) := by
  obtain ⟨he, hidx, hbe, hn⟩ := EcsH.wf_has_facts p e hwf hhas
  obtain ⟨h1, h2, h3, h4, h5, h6, h7⟩ := EcsH.remove_fast_lengths p e hwf hhas
  refine ⟨⟨by omega, by omega, by omega, by omega⟩, h6, ?_⟩
  intro hc
  obtain ⟨hb, hg, hr, hbound, hfwd, hback⟩ := hwf
  have hswb : (lswap p.back (p.forward.getD e invalid_component_index)
      (p.data.length - 1)).getD (p.forward.getD e invalid_component_index) 0 =
      p.back.getD (p.data.length - 1) 0 :=
    lswap_getD_left p.back 0 (by omega) (by omega)
  obtain ⟨hbL1, hbL2⟩ := hback (p.data.length - 1) (by omega)
  have hbLe : p.back.getD (p.data.length - 1) 0 ≠ e := by
    intro hx
    rw [hx] at hbL2
    exact hc hbL2
  rw [EcsH.remove_fast_eq_swap p e hc, hswb]
  refine ⟨?_, ?_, ?_, ?_, ?_⟩
  · rw [getD_dropLast _ _ _ (by simp only [lswap_length]; omega)]
    exact lswap_getD_left p.data 0 (by omega) (by omega)
  · rw [getD_dropLast _ _ _ (by simp only [lswap_length]; omega)]
    exact lswap_getD_left p.back 0 (by omega) (by omega)
  · rw [getD_dropLast _ _ _ (by simp only [lswap_length]; omega)]
    exact lswap_getD_left p.generations 0 (by omega) (by omega)
  · rw [getD_dropLast _ _ _ (by simp only [lswap_length]; omega)]
    exact lswap_getD_left p.refcounts 0 (by omega) (by omega)
  · rw [getD_set_ne _ _ _ (fun h => hbLe h.symm), getD_set_self _ _ _ _ hbL1]

theorem c4_swap_pop_compaction_witness :
    (EcsH.remove_element_fast
        (EcsH.add_element_fast (EcsH.add_element_fast
          ({} : EcsH.component_pool Nat) 0 5) 3 9) 0).data.length + 1 =
      (EcsH.add_element_fast (EcsH.add_element_fast
        ({} : EcsH.component_pool Nat) 0 5) 3 9).data.length :=
  (c4_swap_pop_compaction
    (EcsH.add_element_fast (EcsH.add_element_fast ({} : EcsH.component_pool Nat) 0 5) 3 9)
    0 (by decide) (by decide) (by decide)).1.1

/-- Claim C5: after any sequence of pool inserts and removals starting from
the empty pool with every stated precondition satisfied, presence of an
entity coincides with a non sentinel sparse entry, every non sentinel sparse
entry points below the dense length at a slot owning that entity, and the
four dense arrays share one length. -/
theorem c5_sparse_dense_invariant (ops : List EcsH.op)
    (htr : EcsH.trace_ok {} ops = true) :
    (∀ e, EcsH.has_component (EcsH.run {} ops) e = true ↔
      (EcsH.run {} ops).forward.getD e invalid_component_index ≠
        invalid_component_index) ∧
    (∀ e, (EcsH.run {} ops).forward.getD e invalid_component_index ≠
        invalid_component_index →
      (EcsH.run {} ops).forward.getD e invalid_component_index <
        (EcsH.run {} ops).data.length ∧
      (EcsH.run {} ops).back.getD
        ((EcsH.run {} ops).forward.getD e invalid_component_index) 0 = e) ∧
    (EcsH.run {} ops).back.length = (EcsH.run {} ops).data.length ∧
    (EcsH.run {} ops).generations.length = (EcsH.run {} ops).data.length ∧
    (EcsH.run {} ops).refcounts.length = (EcsH.run {} ops).data.length := by
  have hwf := EcsH.run_wf ops {} EcsH.wf_empty htr
  obtain ⟨hb, hg, hr, hbound, hfwd, hback⟩ := hwf
  refine ⟨?_, ?_, hb, hg, hr⟩
  · intro e
    exact EcsH.wf_has_iff (EcsH.run {} ops) ⟨hb, hg, hr, hbound, hfwd, hback⟩ e
  · intro e hne
    exact hfwd e (EcsH.getD_ne_default_lt _ _ _ hne) hne

theorem c5_sparse_dense_invariant_witness :
    EcsH.has_component
        (EcsH.run {} [EcsH.op.addc 0 1, EcsH.op.addf 2 5, EcsH.op.rmf 2]) 0 = true ↔
      (EcsH.run {} [EcsH.op.addc 0 1, EcsH.op.addf 2 5,
        EcsH.op.rmf 2]).forward.getD 0 invalid_component_index ≠
        invalid_component_index :=
  (c5_sparse_dense_invariant [EcsH.op.addc 0 1, EcsH.op.addf 2 5, EcsH.op.rmf 2]
    (by decide)).1 0

/-- Claim C1 counterexample: the smart_ref of src/ecs.hpp stores no
generation snapshot and its valid() checks only presence.  Starting from the
empty pool: add a component for entity 0, construct a handle, remove the
component with the unchecked removal (release mode semantics) and add a new
component under entity 0 again; the original handle then reports
valid() = true, while the claim demands false. -/
theorem c1_hpp_valid_true_after_readd :
    EcsHpp.smart_ref_valid
      (EcsHpp.smart_ref_mk
        (EcsHpp.add_element_fast ({} : EcsHpp.component_pool Nat) 0 7) 0).1
      (EcsHpp.add_element_fast
        (EcsHpp.remove_element_fast
          (EcsHpp.smart_ref_mk
            (EcsHpp.add_element_fast ({} : EcsHpp.component_pool Nat) 0 7) 0).2 0)
        0 9) = true := by decide

/-- Claim C1 amended: for the smart_ref of src/ecs.h (which stores a
generation snapshot), valid() of a constructed (not moved from) handle is
true exactly when the pool still has a component for the entity and the
generation at its current dense slot equals the captured one; in the
remove and re-add scenario the fresh slot carries a fresh generation and the
original handle reports valid() = false. -/
theorem c1_generation_staleness :
    (∀ (h : EcsH.smart_ref) (p : EcsH.component_pool Nat), h.alive = true →
      (EcsH.smart_ref_valid h p = true ↔
        (EcsH.has_component p h.e = true ∧
         p.generations.getD (p.forward.getD h.e invalid_component_index) 0 =
           h.generation))) ∧
    EcsH.smart_ref_valid
      (EcsH.smart_ref_mk
        (EcsH.add_element_fast ({} : EcsH.component_pool Nat) 0 7) 0).1
      (EcsH.add_element_fast
        (EcsH.remove_element_fast
          (EcsH.smart_ref_mk
            (EcsH.add_element_fast ({} : EcsH.component_pool Nat) 0 7) 0).2 0)
        0 9) = false := by
  constructor
  · intro h p halive
    unfold EcsH.smart_ref_valid
    cases hhas : EcsH.has_component p h.e with
    | false =>
      rw [if_pos (Or.inr rfl)]
      constructor
      · intro hfalse
        exact absurd hfalse (by simp)
      · rintro ⟨h1, _⟩
        exact absurd h1 (by simp)
    | true =>
      rw [if_neg (by simp [halive])]
      constructor
      · intro hdec
        exact ⟨rfl, of_decide_eq_true hdec⟩
      · rintro ⟨_, hgen⟩
        exact decide_eq_true hgen
  · decide

theorem c1_generation_staleness_witness :
    EcsH.smart_ref_valid
        ({ alive := true, e := 0, generation := 0 } : EcsH.smart_ref)
        (EcsH.add_element_fast ({} : EcsH.component_pool Nat) 0 7) = true ↔
      (EcsH.has_component (EcsH.add_element_fast ({} : EcsH.component_pool Nat) 0 7) 0 = true ∧
       (EcsH.add_element_fast ({} : EcsH.component_pool Nat) 0 7).generations.getD
         ((EcsH.add_element_fast ({} : EcsH.component_pool Nat) 0 7).forward.getD 0
           invalid_component_index) 0 = 0) :=
  c1_generation_staleness.1
    ({ alive := true, e := 0, generation := 0 } : EcsH.smart_ref)
    (EcsH.add_element_fast ({} : EcsH.component_pool Nat) 0 7) rfl

/-- Claim C2: while a component is referenced (nonzero slot count, as after
constructing a live handle) the checked removal fails with
component_has_references and changes nothing; once the handle is dropped the
slot count is back to zero, the same checked removal succeeds and the
component is gone.  p1 is the pool after constructing one handle on an
unreferenced component, p2 the pool after dropping that handle again. -/
theorem c2_reference_blocks_removal (p p1 p2 : EcsHpp.component_pool Nat)
    (h : EcsHpp.smart_ref) (e : Nat)
    (hwf : EcsHpp.wf p) (hhas : EcsHpp.has_component p e = true)
    (hrc0 : p.refcounts.getD (p.forward.getD e invalid_component_index) 0 = 0)
    (hmk : EcsHpp.smart_ref_mk p e = (h, p1))
    (hdrop : EcsHpp.smart_ref_drop h p1 = p2) :
    (∀ q : EcsHpp.component_pool Nat, EcsHpp.wf q →
      EcsHpp.has_component q e = true →
      q.refcounts.getD (q.forward.getD e invalid_component_index) 0 ≠ 0 →
      EcsHpp.remove_element q e = (cres.err error.component_has_references, q)) ∧
    EcsHpp.remove_element p1 e = (cres.err error.component_has_references, p1) ∧
    (EcsHpp.remove_element p2 e).1 = cres.ok () ∧
    EcsHpp.has_component (EcsHpp.remove_element p2 e).2 e = false := by
  obtain ⟨he, hidx, hbe, hn⟩ := EcsHpp.hpp_wf_has_facts p e hwf hhas
  obtain ⟨hne0, hnei⟩ := (EcsHpp.hpp_has_component_true_iff p e).mp hhas
  have hrclen : p.forward.getD e invalid_component_index < p.refcounts.length := by
    obtain ⟨hb, hr, _, _, _⟩ := hwf
    omega
  have hh : h = { alive := true, entity := e } := by
    have hfst := congrArg Prod.fst hmk
    rw [EcsHpp.smart_ref_mk_fst] at hfst
    exact hfst.symm
  have hp1 : p1 =
      { p with
        refcounts :=
          p.refcounts.set (p.forward.getD e invalid_component_index)
            ((p.refcounts.getD (p.forward.getD e invalid_component_index) 0 + 1)
              % u32) } := by
    have hsnd := congrArg Prod.snd hmk
    rw [EcsHpp.smart_ref_mk_snd] at hsnd
    exact hsnd.symm
  subst hh
  have hfwd1 : p1.forward = p.forward := by
    rw [hp1]
  have hlen1 : p1.refcounts.length = p.refcounts.length := by
    rw [hp1]
    simp
  have hwf1 : EcsHpp.wf p1 := by
    rw [hp1]
    exact EcsHpp.wf_refcounts_set p _ _ hwf
  have hhas1 : EcsHpp.has_component p1 e = true := by
    rw [hp1, EcsHpp.has_component_refcounts]
    exact hhas
  have hnei1 : p1.forward.getD e invalid_component_index ≠ invalid_component_index := by
    rw [hfwd1]
    exact hnei
  have hrc1 : p1.refcounts.getD (p.forward.getD e invalid_component_index) 0 = 1 := by
    rw [hp1]
    show (p.refcounts.set (p.forward.getD e invalid_component_index)
      ((p.refcounts.getD (p.forward.getD e invalid_component_index) 0 + 1) % u32)).getD
      (p.forward.getD e invalid_component_index) 0 = 1
    rw [getD_set_self _ _ _ _ hrclen, hrc0]
    decide
  have hne1 : p1.refcounts.getD (p1.forward.getD e invalid_component_index) 0 ≠ 0 := by
    rw [hfwd1, hrc1]
    decide
  have hp2 : p2 =
      { p1 with
        refcounts :=
          p1.refcounts.set (p1.forward.getD e invalid_component_index)
            ((p1.refcounts.getD (p1.forward.getD e invalid_component_index) 0
              + (u32 - 1)) % u32) } := by
    rw [← hdrop, EcsHpp.smart_ref_drop_live p1 e hhas1 hnei1]
  have hfwd2 : p2.forward = p.forward := by
    rw [hp2]
    exact hfwd1
  have hwf2 : EcsHpp.wf p2 := by
    rw [hp2]
    exact EcsHpp.wf_refcounts_set p1 _ _ hwf1
  have hhas2 : EcsHpp.has_component p2 e = true := by
    rw [hp2, EcsHpp.has_component_refcounts]
    exact hhas1
  have hrc2 : p2.refcounts.getD (p2.forward.getD e invalid_component_index) 0 = 0 := by
    rw [hfwd2, hp2]
    show (p1.refcounts.set (p1.forward.getD e invalid_component_index)
      ((p1.refcounts.getD (p1.forward.getD e invalid_component_index) 0
        + (u32 - 1)) % u32)).getD (p.forward.getD e invalid_component_index) 0 = 0
    rw [hfwd1]
    rw [getD_set_self _ _ _ _ (by rw [hlen1]; exact hrclen), hrc1]
    decide
  have hok := (EcsHpp.remove_element_spec p2 e hwf2 hhas2).2 hrc2
  refine ⟨fun q hq hhq hrcq => (EcsHpp.remove_element_spec q e hq hhq).1 hrcq,
    (EcsHpp.remove_element_spec p1 e hwf1 hhas1).1 hne1, ?_, ?_⟩
  · rw [hok]
  · rw [hok]
    refine EcsHpp.hpp_remove_fast_has_false p2 e ?_
    rw [hfwd2]
    exact he

theorem c2_reference_blocks_removal_witness :
    EcsHpp.remove_element
        (EcsHpp.smart_ref_mk
          (EcsHpp.add_element_fast ({} : EcsHpp.component_pool Nat) 0 5) 0).2 0 =
      (cres.err error.component_has_references,
       (EcsHpp.smart_ref_mk
         (EcsHpp.add_element_fast ({} : EcsHpp.component_pool Nat) 0 5) 0).2) :=
  (c2_reference_blocks_removal
    (EcsHpp.add_element_fast ({} : EcsHpp.component_pool Nat) 0 5)
    (EcsHpp.smart_ref_mk
      (EcsHpp.add_element_fast ({} : EcsHpp.component_pool Nat) 0 5) 0).2
    (EcsHpp.smart_ref_drop
      (EcsHpp.smart_ref_mk
        (EcsHpp.add_element_fast ({} : EcsHpp.component_pool Nat) 0 5) 0).1
      (EcsHpp.smart_ref_mk
        (EcsHpp.add_element_fast ({} : EcsHpp.component_pool Nat) 0 5) 0).2)
    (EcsHpp.smart_ref_mk
      (EcsHpp.add_element_fast ({} : EcsHpp.component_pool Nat) 0 5) 0).1
    0 (by decide) (by decide) (by decide) rfl rfl).2.1

/-- Claim C6 counterexample: with exactly one component stored (for entity
0) the sparse array has length one, and the checked removal for entity 5
reads forward[5] out of bounds, undefined behavior, instead of returning an
error value. -/
theorem c6_remove_element_oob_read :
    (EcsHpp.remove_element
      (EcsHpp.add_element_fast ({} : EcsHpp.component_pool Nat) 0 5) 5).1 =
      cres.ub := by decide

/-- Claim C6 amended: checked remove_element and get_element are total with
exactly one error value, and absence yields component_does_not_exist, for
every entity id the sparse array covers and on the empty pool; for an
uncovered id on a nonempty pool the operations read out of the sparse array
bounds (see the counterexample). -/
theorem c6_checked_total_in_bounds (p : EcsHpp.component_pool Nat) (e : Nat)
    (hwf : EcsHpp.wf p)
    (hrange : e < p.forward.length ∨ p.data.length = 0) :
    (EcsHpp.remove_element p e).1 ≠ cres.ub ∧
    EcsHpp.get_element p e ≠ cres.ub ∧
    (EcsHpp.has_component p e = false →
      (EcsHpp.remove_element p e).1 = cres.err error.component_does_not_exist ∧
      EcsHpp.get_element p e = cres.err error.component_does_not_exist) := by
  obtain ⟨hb, hr, hbound, hfwd, hback⟩ := hwf
  by_cases hcond : p.forward.length = 0 ∨ p.back.length = 0
  · have hrm : EcsHpp.remove_element p e =
        (cres.err error.component_does_not_exist, p) := by
      unfold EcsHpp.remove_element
      rw [if_pos hcond]
    have hget : EcsHpp.get_element p e = cres.err error.component_does_not_exist := by
      unfold EcsHpp.get_element
      rw [if_pos hcond]
    rw [hrm, hget]
    exact ⟨by simp, by simp, fun _ => ⟨rfl, rfl⟩⟩
  · have he : e < p.forward.length := by
      rcases hrange with h | h
      · exact h
      · exact absurd (by omega : p.back.length = 0) (fun hx => hcond (Or.inr hx))
    have hgete : p.forward.get? e =
        some (p.forward.getD e invalid_component_index) :=
      getD_lt_eq p.forward e invalid_component_index he
    by_cases hinv : p.forward.getD e invalid_component_index = invalid_component_index
    · have hrm : EcsHpp.remove_element p e =
          (cres.err error.component_does_not_exist, p) := by
        unfold EcsHpp.remove_element
        rw [if_neg hcond, hgete]
        simp only [if_pos hinv]
      have hget : EcsHpp.get_element p e = cres.err error.component_does_not_exist := by
        unfold EcsHpp.get_element
        rw [if_neg hcond, hgete]
        simp only [if_pos hinv]
      rw [hrm, hget]
      exact ⟨by simp, by simp, fun _ => ⟨rfl, rfl⟩⟩
    · obtain ⟨hlt, _⟩ := hfwd e he hinv
      have hrcget : p.refcounts.get? (p.forward.getD e invalid_component_index) =
          some (p.refcounts.getD (p.forward.getD e invalid_component_index) 0) :=
        getD_lt_eq p.refcounts _ 0 (by omega)
      have hdget : p.data.get? (p.forward.getD e invalid_component_index) =
          some (p.data.getD (p.forward.getD e invalid_component_index) 0) :=
        getD_lt_eq p.data _ 0 (by omega)
      have hget : EcsHpp.get_element p e =
          cres.ok (p.data.getD (p.forward.getD e invalid_component_index) 0) := by
        unfold EcsHpp.get_element
        rw [if_neg hcond, hgete]
        simp only [if_neg hinv, hdget]
      have htrue : EcsHpp.has_component p e = true :=
        (EcsHpp.hpp_has_component_true_iff p e).mpr ⟨by omega, hinv⟩
      refine ⟨?_, ?_, ?_⟩
      · unfold EcsHpp.remove_element
        rw [if_neg hcond, hgete]
        simp only [if_neg hinv, hrcget]
        by_cases hz :
            p.refcounts.getD (p.forward.getD e invalid_component_index) 0 ≠ 0
        · rw [if_pos hz]
          simp
        · rw [if_neg hz]
          simp
      · rw [hget]
        simp
      · intro hfalse
        rw [htrue] at hfalse
        exact absurd hfalse (by simp)

theorem c6_checked_total_in_bounds_witness :
    (EcsHpp.remove_element
      (EcsHpp.add_element_fast ({} : EcsHpp.component_pool Nat) 0 5) 0).1 ≠ cres.ub :=
  (c6_checked_total_in_bounds
    (EcsHpp.add_element_fast ({} : EcsHpp.component_pool Nat) 0 5) 0
    (by decide) (Or.inl (by decide))).1

/-- Claim C3 (code bug): checked remove_entity erases the entity from the
live list first and then calls the bulk removal, which re-checks membership
against the already shrunk list; for an entity that occurred once the bulk
removal therefore fails immediately with no_such_entity, the error
propagates, and no pool is touched: the call never removes any component and
never returns success for a live entity. -/
theorem c3_remove_entity_no_such_entity (s : EcsHpp.ecs2) (e : Nat)
    (hmem : e ∈ s.entities) (honce : e ∉ s.entities.erase e) :
    EcsHpp.remove_entity_checked s e =
      (cres.err error.no_such_entity, { s with entities := s.entities.erase e }) := by
  have h1 : EcsHpp.remove_components_checked_lax
      { s with entities := s.entities.erase e } e =
      (cres.err error.no_such_entity, { s with entities := s.entities.erase e }) := by
    unfold EcsHpp.remove_components_checked_lax
    rw [if_neg honce]
  unfold EcsHpp.remove_entity_checked
  rw [if_pos hmem]
  simp only [h1]

theorem c3_remove_entity_no_such_entity_witness :
    EcsHpp.remove_entity_checked
        { pa := EcsHpp.add_element_fast ({} : EcsHpp.component_pool Nat) 0 5,
          pb := {}, entities := [0], counter := 1 } 0 =
      (cres.err error.no_such_entity,
       { pa := EcsHpp.add_element_fast ({} : EcsHpp.component_pool Nat) 0 5,
         pb := {}, entities := List.erase [0] 0, counter := 1 }) :=
  c3_remove_entity_no_such_entity
    { pa := EcsHpp.add_element_fast ({} : EcsHpp.component_pool Nat) 0 5,
      pb := {}, entities := [0], counter := 1 } 0 (by decide) (by decide)

/-- Claim C7 (code bug): begin() starts the iteration at index 0 of the
driving pool without a filtering step, so the first entity of the driving
pool is yielded even when it lacks one of the component types.  With entity
1 holding A and B, entity 2 holding A only and entity 3 holding B only
(insertion orders 2, 1 in pool A and 3, 1 in pool B, the pools tied in size
so pool A drives), the view over (A, B) yields [2, 1], although entity 2 has
no B component; the claim demands exactly the set of entities holding both,
here only entity 1. -/
theorem c7_view_yields_nonmatching :
    EcsHpp.view_entities
        (EcsHpp.add_element_fast
          (EcsHpp.add_element_fast ({} : EcsHpp.component_pool Nat) 2 10) 1 11)
        (EcsHpp.add_element_fast
          (EcsHpp.add_element_fast ({} : EcsHpp.component_pool Nat) 3 20) 1 21) =
      [2, 1] ∧
    EcsHpp.has_component
        (EcsHpp.add_element_fast
          (EcsHpp.add_element_fast ({} : EcsHpp.component_pool Nat) 3 20) 1 21) 2 =
      false := by decide

/-- Claim C8: copying a live handle of a present component raises the slot
count by exactly one and yields an identical handle; moving yields an
identical handle, kills the source, and a moved from handle changes no count
when dropped; and dropping any interleaving of n live handles of one slot
and arbitrarily many moved from handles in any order returns the slot count
exactly to its value before the n references were taken. -/
theorem c8_refcount_balance :
    (∀ (h : EcsHpp.smart_ref) (p : EcsHpp.component_pool Nat),
      h.alive = true → EcsHpp.has_component p h.entity = true →
      p.forward.getD h.entity invalid_component_index < p.refcounts.length →
      p.refcounts.getD (p.forward.getD h.entity invalid_component_index) 0 + 1 < u32 →
      ((EcsHpp.smart_ref_copy h p).1 = h ∧
       (EcsHpp.smart_ref_copy h p).2.refcounts.getD
           (p.forward.getD h.entity invalid_component_index) 0 =
         p.refcounts.getD (p.forward.getD h.entity invalid_component_index) 0 + 1)) ∧
    (∀ h : EcsHpp.smart_ref,
      (EcsHpp.smart_ref_move h).1 = h ∧
      (EcsHpp.smart_ref_move h).2.alive = false ∧
      (∀ p : EcsHpp.component_pool Nat,
        EcsHpp.smart_ref_drop (EcsHpp.smart_ref_move h).2 p = p)) ∧
    (∀ (p : EcsHpp.component_pool Nat) (e r : Nat) (hs : List EcsHpp.smart_ref),
      (∀ g ∈ hs, g.alive = true → g.entity = e) →
      EcsHpp.has_component p e = true →
      p.forward.getD e invalid_component_index < p.refcounts.length →
      p.refcounts.getD (p.forward.getD e invalid_component_index) 0 =
        r + EcsHpp.countLive hs →
      r + EcsHpp.countLive hs < u32 →
      (hs.foldl (fun q g => EcsHpp.smart_ref_drop g q) p).refcounts.getD
        (p.forward.getD e invalid_component_index) 0 = r) := by
  refine ⟨?_, ?_, ?_⟩
  · intro h p halive hhas hlt hroom
    unfold EcsHpp.smart_ref_copy
    rw [if_pos ⟨halive, hhas⟩]
    constructor
    · show ({ alive := h.alive, entity := h.entity } : EcsHpp.smart_ref) = h
      cases h
      rfl
    · show (p.refcounts.set (p.forward.getD h.entity invalid_component_index)
        ((p.refcounts.getD (p.forward.getD h.entity invalid_component_index) 0 + 1)
          % u32)).getD (p.forward.getD h.entity invalid_component_index) 0 = _
      rw [getD_set_self _ _ _ _ hlt]
      exact Nat.mod_eq_of_lt hroom
  · intro h
    refine ⟨?_, rfl, ?_⟩
    · show ({ alive := h.alive, entity := h.entity } : EcsHpp.smart_ref) = h
      cases h
      rfl
    · intro p
      unfold EcsHpp.smart_ref_drop
      rw [if_neg (fun hcon => Bool.noConfusion hcon.1)]
  · intro p e r hs hall hhas hlt hrc hroom
    exact (EcsHpp.drop_all_refcounts e hs p r hall hhas hlt hrc hroom).1

theorem c8_refcount_balance_witness :
    (EcsHpp.smart_ref_copy (⟨true, 0⟩ : EcsHpp.smart_ref)
        (EcsHpp.smart_ref_mk
          (EcsHpp.add_element_fast ({} : EcsHpp.component_pool Nat) 0 5) 0).2).2.refcounts.getD
        ((EcsHpp.smart_ref_mk
          (EcsHpp.add_element_fast ({} : EcsHpp.component_pool Nat) 0 5) 0).2.forward.getD
          (⟨true, 0⟩ : EcsHpp.smart_ref).entity invalid_component_index) 0 =
      (EcsHpp.smart_ref_mk
        (EcsHpp.add_element_fast ({} : EcsHpp.component_pool Nat) 0 5) 0).2.refcounts.getD
        ((EcsHpp.smart_ref_mk
          (EcsHpp.add_element_fast ({} : EcsHpp.component_pool Nat) 0 5) 0).2.forward.getD
          (⟨true, 0⟩ : EcsHpp.smart_ref).entity invalid_component_index) 0 + 1 ∧
    ([(⟨true, 0⟩ : EcsHpp.smart_ref)].foldl (fun q g => EcsHpp.smart_ref_drop g q)
        (EcsHpp.smart_ref_mk
          (EcsHpp.add_element_fast ({} : EcsHpp.component_pool Nat) 0 5) 0).2).refcounts.getD
        ((EcsHpp.smart_ref_mk
          (EcsHpp.add_element_fast ({} : EcsHpp.component_pool Nat) 0 5) 0).2.forward.getD
          0 invalid_component_index) 0 = 0 :=
  ⟨(c8_refcount_balance.1 (⟨true, 0⟩ : EcsHpp.smart_ref)
      (EcsHpp.smart_ref_mk
        (EcsHpp.add_element_fast ({} : EcsHpp.component_pool Nat) 0 5) 0).2
      rfl (by decide) (by decide) (by decide)).2,
   c8_refcount_balance.2.2
      (EcsHpp.smart_ref_mk
        (EcsHpp.add_element_fast ({} : EcsHpp.component_pool Nat) 0 5) 0).2
      0 0 [(⟨true, 0⟩ : EcsHpp.smart_ref)]
      (by decide) (by decide) (by decide) (by decide) (by decide)⟩

theorem creates_count_replicate (k : Nat) :
    EcsHpp.creates_count (List.replicate k EcsHpp.eop.create) = k := by
  induction k with
  | zero => rfl
  | succ k ih => simpa [List.replicate_succ, EcsHpp.creates_count] using ih

theorem entity_outputs_single_create (s : EcsHpp.ecs2) :
    EcsHpp.entity_outputs s [EcsHpp.eop.create] = [s.counter] := rfl

/-- Claim C9 counterexample: the entity counter is a 32 bit unsigned
integer; in a sequence of 2 to the 32 plus one creations the counter wraps
and the last creation returns identifier 0 again, so the returned
identifiers are neither strictly increasing nor pairwise distinct. -/
theorem c9_entity_id_wraps :
    ¬ (EcsHpp.entity_outputs {}
        (List.replicate (u32 + 1) EcsHpp.eop.create)).Pairwise (· ≠ ·) := by
  intro hpw
  have hsplit : List.replicate (u32 + 1) EcsHpp.eop.create =
      List.replicate u32 EcsHpp.eop.create ++ [EcsHpp.eop.create] := by
    rw [List.replicate_succ']
  rw [hsplit, EcsHpp.entity_outputs_append] at hpw
  have h1 : EcsHpp.entity_outputs {} (List.replicate u32 EcsHpp.eop.create) =
      (List.range (EcsHpp.creates_count (List.replicate u32 EcsHpp.eop.create))).map
        (fun i => ({} : EcsHpp.ecs2).counter + i) :=
    EcsHpp.entity_outputs_eq (List.replicate u32 EcsHpp.eop.create) {} (by
      rw [creates_count_replicate]
      show (0 : Nat) + u32 ≤ u32
      omega)
  have h2 := entity_outputs_single_create
    (EcsHpp.run_entity_ops {} (List.replicate u32 EcsHpp.eop.create))
  have h3 : (EcsHpp.run_entity_ops {}
      (List.replicate u32 EcsHpp.eop.create)).counter = 0 := by
    rw [EcsHpp.run_counter_creates u32 {} (by decide)]
    show (({} : EcsHpp.ecs2).counter + u32) % u32 = 0
    simp
  rw [h1, h2, h3, creates_count_replicate] at hpw
  rw [List.pairwise_append] at hpw
  obtain ⟨_, _, hcross⟩ := hpw
  have hmem : (0 : Nat) ∈
      (List.range u32).map (fun i => ({} : EcsHpp.ecs2).counter + i) := by
    refine List.mem_map.mpr ⟨0, ?_, ?_⟩
    · exact List.mem_range.mpr (by decide)
    · rfl
  exact hcross 0 hmem 0 (by simp) rfl

/-- Claim C9 amended: add_entity returns the current counter value,
appends it to the live list and advances the 32 bit counter; across any
sequence of creations and checked removals with at most 2 to the 32
creations, the returned identifiers are strictly increasing (never reused);
beyond that bound the counter wraps (see the counterexample). -/
theorem c9_entity_ids_strictly_increasing :
    (∀ s : EcsHpp.ecs2, EcsHpp.add_entity s =
      (s.counter,
       { s with
         entities := s.entities ++ [s.counter],
         counter := (s.counter + 1) % u32 })) ∧
    (∀ ops : List EcsHpp.eop, EcsHpp.creates_count ops ≤ u32 →
      (EcsHpp.entity_outputs {} ops).Pairwise (· < ·)) := by
  constructor
  · intro s
    rfl
  · intro ops hle
    rw [EcsHpp.entity_outputs_eq ops {} (by
      show (0 : Nat) + EcsHpp.creates_count ops ≤ u32
      omega)]
    rw [List.pairwise_map]
    refine List.Pairwise.imp ?_ (List.pairwise_lt_range _)
    intro a b hab
    exact Nat.add_lt_add_left hab _

theorem c9_entity_ids_strictly_increasing_witness :
    (EcsHpp.entity_outputs {}
      [EcsHpp.eop.create, EcsHpp.eop.create, EcsHpp.eop.remove 0,
       EcsHpp.eop.create]).Pairwise (· < ·) :=
  c9_entity_ids_strictly_increasing.2
    [EcsHpp.eop.create, EcsHpp.eop.create, EcsHpp.eop.remove 0, EcsHpp.eop.create]
    (by decide)

end MmEcs
